import Mathlib

/-!
Verification of the WiVRn clock-offset estimator.

Shallow embedding of `src/server/driver/clock_offset.cpp`
(`clock_offset_estimator::request_sample`, `clock_offset_estimator::add_sample`,
`clock_offset_estimator::get_offset`, `clock_offset::from_headset`,
`clock_offset::to_headset`).

Modelling conventions:
* C++ `double` arithmetic is modelled over `ℚ` (exact rational arithmetic);
  statements about floating-point tolerance become exact-error bounds.
* C++ `int64_t` values are modelled as `ℤ`.  The one place where fixed-width
  semantics are observable on realistic values — the statement
  `latency /= samples.size()` which divides an `int64_t` by a `size_t` after
  the usual arithmetic conversion to `uint64_t` — is modelled bit-faithfully
  by `i64_udiv` below.
* A `double → int64_t` conversion truncates toward zero; it is modelled by
  `i64trunc`.
* Clock reads (`std::chrono::steady_clock::now()`, `os_monotonic_get_ns()`)
  are passed in as explicit arguments.
-/

set_option maxRecDepth 20000

namespace WiVRnClock

/-- The reply wire message `from_headset::timesync_response`:
`query` echoes the server's send timestamp, `response` is the
headset's own clock reading (both int64 nanoseconds). -/
structure TimesyncResponse where
  query : ℤ
  response : ℤ

/-- Modelled from the spec: the `clock_offset_estimator::sample` record
(declared in `clock_offset.h`, which is not part of the sources): one
completed round-trip probe, holding the reply's `query` and `response`
plus the server-side arrival timestamp `received`. -/
structure Sample where
  query : ℤ
  response : ℤ
  received : ℤ

/-- Modelled from the spec: the `clock_offset` model (declared in
`clock_offset.h`, not in the sources): two floating-point coefficients
`(a, b)` with `device_time ≈ a · server_time + b`. -/
structure ClockOffset where
  a : ℚ
  b : ℚ

/-- Modelled from the spec: the `clock_offset_estimator` state (fields
declared in `clock_offset.h`): the rolling sample window plus write cursor,
the scheduling state (`sample_interval`, `next_sample`, in nanoseconds),
and the current clock model. -/
structure EstimatorState where
  samples : List Sample
  sample_index : ℕ
  sample_interval : ℤ
  next_sample : ℤ
  offset : ClockOffset

/-- The window capacity, `static const size_t num_samples = 100;`. -/
def num_samples : ℕ := 100

/-- One steady-state second, `std::chrono::seconds(1)`, in nanoseconds. -/
def steady_interval : ℤ := 1000000000

/-- Conversion `double → int64_t`: truncation toward zero. -/
def i64trunc (q : ℚ) : ℤ := if 0 ≤ q then ⌊q⌋ else ⌈q⌉

/-- The C++ statement `latency /= samples.size()` where `latency : int64_t`
and `samples.size() : size_t`: the signed operand is converted to `uint64_t`,
the division is unsigned, and the quotient is converted back to `int64_t`
(two's-complement reinterpretation). -/
def i64_udiv (total : ℤ) (n : ℕ) : ℤ :=
  let u : ℕ := (total % (2 ^ 64)).toNat / n
  if u < 2 ^ 63 then (u : ℤ) else (u : ℤ) - 2 ^ 64

/-- X-axis value of a sample: `(s.query + s.received).count() * 0.5`
(midpoint of the round trip, assuming symmetric latency). -/
def midpointX (s : Sample) : ℚ := ((s.query + s.received : ℤ) : ℚ) * (1 / 2)

/-- Sum of round-trip latencies `(s.received - s.query).count()` over the
window (the accumulation loop of `add_sample`). -/
def sumLatency (l : List Sample) : ℤ := (l.map (fun s => s.received - s.query)).sum

/-- The mean `x0` of the X values over the window. -/
def meanX0 (l : List Sample) : ℚ := (l.map midpointX).sum / (l.length : ℚ)

/-- The mean `y0` of the `response` values over the window. -/
def meanY0 (l : List Sample) : ℚ := (l.map (fun s => (s.response : ℚ))).sum / (l.length : ℚ)

/-- Accumulator `sum_x`: sum of centered X values. -/
def sum_x (l : List Sample) : ℚ := (l.map (fun s => midpointX s - meanX0 l)).sum

/-- Accumulator `sum_y`: sum of centered Y values. -/
def sum_y (l : List Sample) : ℚ := (l.map (fun s => (s.response : ℚ) - meanY0 l)).sum

/-- Accumulator `sum_x2`: sum of squared centered X values. -/
def sum_x2 (l : List Sample) : ℚ :=
  (l.map (fun s => (midpointX s - meanX0 l) * (midpointX s - meanX0 l))).sum

/-- Accumulator `sum_xy`: sum of products of centered X and Y values. -/
def sum_xy (l : List Sample) : ℚ :=
  (l.map (fun s => (midpointX s - meanX0 l) * ((s.response : ℚ) - meanY0 l))).sum

/-- The steady-state regression denominator `v = inv_n * sum_x2 - mean_x * mean_x`
(the X-variance of the window). -/
def regressionDenom (l : List Sample) : ℚ :=
  let inv_n : ℚ := 1 / (l.length : ℚ)
  let mean_x := sum_x l * inv_n
  inv_n * sum_x2 l - mean_x * mean_x

/-- The steady-state regression numerator `cov = inv_n * sum_xy - mean_x * mean_y`. -/
def regressionCov (l : List Sample) : ℚ :=
  let inv_n : ℚ := 1 / (l.length : ℚ)
  let mean_x := sum_x l * inv_n
  let mean_y := sum_y l * inv_n
  inv_n * sum_xy l - mean_x * mean_y

/-- The steady-state branch of the linear-regression section of `add_sample`:
`a = cov / v`, `b = mean_y - a * mean_x`, stored as
`offset.a = a`, `offset.b = y0 + b - int64_t(a * x0)`. -/
def regress (l : List Sample) : ClockOffset :=
  let inv_n : ℚ := 1 / (l.length : ℚ)
  let mean_x := sum_x l * inv_n
  let mean_y := sum_y l * inv_n
  let a := regressionCov l / regressionDenom l
  let b := mean_y - a * mean_x
  ⟨a, meanY0 l + b - (i64trunc (a * meanX0 l) : ℚ)⟩

/-- The bootstrap branch of the regression section of `add_sample`
(window not yet full): `offset.a = 1`, `offset.b = y0 - x0`. -/
def bootstrapOffset (l : List Sample) : ClockOffset :=
  ⟨1, meanY0 l - meanX0 l⟩

/-- The regression section of `add_sample`, applied to the mutated window. -/
def recomputeOffset (l : List Sample) : ClockOffset :=
  if l.length < num_samples then bootstrapOffset l else regress l

/-- Embeds `clock_offset_estimator::add_sample`: `base` is the reply message,
`now` the value of `os_monotonic_get_ns()` at the call. -/
def add_sample (st : EstimatorState) (base : TimesyncResponse) (now : ℤ) :
    EstimatorState :=
  let s : Sample := ⟨base.query, base.response, now⟩
  if st.samples.length < num_samples then
    let l := st.samples ++ [s]
    { st with samples := l, offset := recomputeOffset l }
  else
    let latency := i64_udiv (sumLatency st.samples) st.samples.length
    if s.received - s.query > 3 * latency then
      { st with sample_interval := steady_interval }
    else
      let l := st.samples.set st.sample_index s
      { st with samples := l,
                sample_index := (st.sample_index + 1) % num_samples,
                sample_interval := steady_interval,
                offset := recomputeOffset l }

/-- Embeds `clock_offset_estimator::request_sample`: `nowSteady` is the
`steady_clock::now()` reading (the two reads in the source are modelled as
one instant), `nowMono` the `os_monotonic_get_ns()` reading stamped into the
outbound `timesync_query`.  Returns the new state and the query message
handed to `connection.send_stream`, if any. -/
def request_sample (st : EstimatorState) (nowSteady nowMono : ℤ) :
    EstimatorState × Option ℤ :=
  if nowSteady < st.next_sample then (st, none)
  else ({ st with next_sample := nowSteady + st.sample_interval }, some nowMono)

/-- Embeds `clock_offset_estimator::get_offset`. -/
def get_offset (st : EstimatorState) : ClockOffset := st.offset

/-- Embeds `clock_offset::from_headset`: `int64_t res = (int64_t(ts) - b) / a;`
(the division is `double` arithmetic, the store into `res` truncates). -/
def from_headset (m : ClockOffset) (ts : ℤ) : ℤ :=
  i64trunc (((ts : ℚ) - m.b) / m.a)

/-- Embeds `clock_offset::to_headset`:
`int64_t res = int64_t(a * timestamp_ns) + b;` — the cast of
`a * timestamp_ns` truncates, and the store of the sum into `res`
truncates again. -/
def to_headset (m : ClockOffset) (t : ℤ) : ℤ :=
  i64trunc ((i64trunc (m.a * (t : ℚ)) : ℚ) + m.b)

/-- Modelled from the spec: the estimator's initial state (member
initializers live in `clock_offset.h`): empty window, cursor 0, a
sub-second fast initial `sample_interval` (passed as `fast`), and an
identity-like default model. -/
def initState (fast : ℤ) : EstimatorState :=
  ⟨[], 0, fast, 0, ⟨1, 0⟩⟩

/-- Run a sequence of `add_sample` calls (reply, arrival-time pairs)
from the initial state. -/
def run (fast : ℤ) (cs : List (TimesyncResponse × ℤ)) : EstimatorState :=
  cs.foldl (fun st c => add_sample st c.1 c.2) (initState fast)

/-! Spec-side definitions used to compare against the source. -/

/-- A concrete full window of 100 samples with round-trip latency 10 ns each. -/
def fullWindow10 : List Sample := List.replicate 100 ⟨0, 0, 10⟩
/-- A concrete estimator state whose window is `fullWindow10`, with the fast
initial 100 ms probe interval still in effect. -/
def stateFull10 : EstimatorState := ⟨fullWindow10, 0, 100000000, 0, ⟨1, 0⟩⟩
/-- A full window whose round-trip latencies sum to −150 ns (mean −1.5 ns):
50 samples with latency −3 and 50 with latency 0. -/
def negLatWindow : List Sample :=
  ⟨3, 0, 0⟩ :: (List.replicate 49 ⟨3, 0, 0⟩ ++ List.replicate 50 ⟨0, 0, 0⟩)
/-- Estimator state holding `negLatWindow`. -/
def negLatState : EstimatorState := ⟨negLatWindow, 0, 100000000, 0, ⟨1, 0⟩⟩
/-- The last 99 samples of the `C2` witness window: `(2i, 2i, 2i)` for
`1 ≤ i < 100`. -/
def affineTail : List Sample :=
  (List.range 99).map
    (fun i : ℕ => (⟨2 * ((i : ℤ) + 1), 2 * ((i : ℤ) + 1), 2 * ((i : ℤ) + 1)⟩ : Sample))
/-- The admitted window of the `C2` witness before the final admission:
samples `(2i, 2i, 2i)` for `i < 100`, except that slot 0 holds a
high-latency sample that the candidate will overwrite. -/
def affineWindowPre : List Sample := ⟨0, 0, 1000⟩ :: affineTail
/-- Estimator state holding `affineWindowPre` with the cursor at slot 0. -/
def affineState : EstimatorState := ⟨affineWindowPre, 0, 100000000, 0, ⟨1, 0⟩⟩
/-- A full window of 100 identical samples: every midpoint is the same, so
the regression's X-variance is exactly zero. -/
def constWindow : List Sample := List.replicate 100 ⟨0, 5, 0⟩
/-- Estimator state holding `constWindow`. -/
def constState : EstimatorState := ⟨constWindow, 0, 100000000, 0, ⟨1, 0⟩⟩

/-! Helper lemmas. -/

theorem sumLatency_cons (s : Sample) (l : List Sample) :
    sumLatency (s :: l) = (s.received - s.query) + sumLatency l := by
  unfold sumLatency
  rw [List.map_cons, List.sum_cons]

theorem sumLatency_append (l₁ l₂ : List Sample) :
    sumLatency (l₁ ++ l₂) = sumLatency l₁ + sumLatency l₂ := by
  unfold sumLatency
  rw [List.map_append, List.sum_append]

theorem sumLatency_replicate (n : ℕ) (s : Sample) :
    sumLatency (List.replicate n s) = (n : ℤ) * (s.received - s.query) := by
  unfold sumLatency
  rw [List.map_replicate, List.sum_replicate, nsmul_eq_mul]

theorem abs_i64trunc_sub_lt (q : ℚ) : |((i64trunc q : ℤ) : ℚ) - q| < 1 := by
  unfold i64trunc
  split
  · rw [abs_lt]
    constructor
    · have := Int.lt_floor_add_one q
      linarith
    · have := Int.floor_le q
      linarith
  · rw [abs_lt]
    constructor
    · have := Int.le_ceil q
      linarith
    · have := Int.ceil_lt_add_one q
      linarith

/-- Claim C6: for every model with `a ≠ 0`, translating a timestamp to the device
clock and back returns the original timestamp up to rounding error: the error
is strictly less than `1 + 2/|a|` nanoseconds (for a converged model with
`a ≈ 1`, less than about 3 ns). -/
theorem C6_round_trip (m : ClockOffset) (t : ℤ) (ha : m.a ≠ 0) :
    |((from_headset m (to_headset m t) : ℤ) : ℚ) - (t : ℚ)| < 1 + 2 / |m.a| := by
  set u := i64trunc (m.a * (t : ℚ)) with hu
  have h1 : |((u : ℤ) : ℚ) - m.a * t| < 1 := abs_i64trunc_sub_lt _
  set d := to_headset m t with hd
  have h2 : |((d : ℤ) : ℚ) - (((u : ℤ) : ℚ) + m.b)| < 1 := by
    rw [hd]
    unfold to_headset
    exact abs_i64trunc_sub_lt _
  have h3 : |(((d : ℤ) : ℚ) - m.b) - m.a * t| < 2 := by
    have := abs_add (((d : ℤ) : ℚ) - (((u : ℤ) : ℚ) + m.b)) (((u : ℤ) : ℚ) - m.a * t)
    have heq : (((d : ℤ) : ℚ) - m.b) - m.a * t =
        (((d : ℤ) : ℚ) - (((u : ℤ) : ℚ) + m.b)) + (((u : ℤ) : ℚ) - m.a * t) := by ring
    rw [heq]
    calc |(((d : ℤ) : ℚ) - (((u : ℤ) : ℚ) + m.b)) + (((u : ℤ) : ℚ) - m.a * t)|
        ≤ |((d : ℤ) : ℚ) - (((u : ℤ) : ℚ) + m.b)| + |((u : ℤ) : ℚ) - m.a * t| := this
      _ < 1 + 1 := by linarith
      _ = 2 := by norm_num
  have h4 : |((((d : ℤ) : ℚ) - m.b) / m.a) - (t : ℚ)| < 2 / |m.a| := by
    have heq : ((((d : ℤ) : ℚ) - m.b) / m.a) - (t : ℚ) =
        ((((d : ℤ) : ℚ) - m.b) - m.a * t) / m.a := by
      field_simp
    rw [heq, abs_div]
    gcongr
  have h5 : |((from_headset m d : ℤ) : ℚ) - ((((d : ℤ) : ℚ) - m.b) / m.a)| < 1 := by
    unfold from_headset
    exact abs_i64trunc_sub_lt _
  calc |((from_headset m d : ℤ) : ℚ) - (t : ℚ)|
      = |(((from_headset m d : ℤ) : ℚ) - ((((d : ℤ) : ℚ) - m.b) / m.a)) +
          (((((d : ℤ) : ℚ) - m.b) / m.a) - (t : ℚ))| := by ring_nf
    _ ≤ |((from_headset m d : ℤ) : ℚ) - ((((d : ℤ) : ℚ) - m.b) / m.a)| +
          |((((d : ℤ) : ℚ) - m.b) / m.a) - (t : ℚ)| := abs_add _ _
    _ < 1 + 2 / |m.a| := by linarith

/-- Witness for `C6` at the identity model and `t = 5`. -/
theorem C6_round_trip_witness :
    (⟨1, 0⟩ : ClockOffset).a ≠ 0 ∧
    |((from_headset ⟨1, 0⟩ (to_headset ⟨1, 0⟩ 5) : ℤ) : ℚ) - ((5 : ℤ) : ℚ)| <
      1 + 2 / |(⟨1, 0⟩ : ClockOffset).a| :=
  ⟨by norm_num, C6_round_trip ⟨1, 0⟩ 5 (by norm_num)⟩

/-- Claim C8: `request_sample` is a complete no-op (same state, no message) when
called before `next_sample`; otherwise it advances `next_sample` to
`now + sample_interval`, hands the transport a query stamped with the current
monotonic time, and changes nothing else; the resulting scheduling state does
not depend on the message's fate (it is the same function of the state and the
clock readings whatever happens to the stamped query afterwards). -/
theorem C8_request_sample (st : EstimatorState) (ns nm nm' : ℤ) :
    (ns < st.next_sample → request_sample st ns nm = (st, none)) ∧
    (¬ ns < st.next_sample →
      (request_sample st ns nm).1.next_sample = ns + st.sample_interval ∧
      (request_sample st ns nm).2 = some nm ∧
      (request_sample st ns nm).1.samples = st.samples ∧
      (request_sample st ns nm).1.sample_index = st.sample_index ∧
      (request_sample st ns nm).1.sample_interval = st.sample_interval ∧
      (request_sample st ns nm).1.offset = st.offset) ∧
    (request_sample st ns nm).1 = (request_sample st ns nm').1 := by
  unfold request_sample
  by_cases h : ns < st.next_sample <;> simp [h]

/-- Witness for `C8`: both branches at a concrete state. -/
theorem C8_request_sample_witness :
    ((5 : ℤ) < (⟨[], 0, 7, 10, ⟨1, 0⟩⟩ : EstimatorState).next_sample ∧
      request_sample ⟨[], 0, 7, 10, ⟨1, 0⟩⟩ 5 3 = (⟨[], 0, 7, 10, ⟨1, 0⟩⟩, none)) ∧
    (¬ (12 : ℤ) < (⟨[], 0, 7, 10, ⟨1, 0⟩⟩ : EstimatorState).next_sample ∧
      (request_sample ⟨[], 0, 7, 10, ⟨1, 0⟩⟩ 12 3).1.next_sample = 12 + 7 ∧
      (request_sample ⟨[], 0, 7, 10, ⟨1, 0⟩⟩ 12 3).2 = some 3) :=
  ⟨⟨by norm_num, (C8_request_sample ⟨[], 0, 7, 10, ⟨1, 0⟩⟩ 5 3 3).1 (by norm_num)⟩,
   ⟨by norm_num,
    ((C8_request_sample ⟨[], 0, 7, 10, ⟨1, 0⟩⟩ 12 3 3).2.1 (by norm_num)).1,
    ((C8_request_sample ⟨[], 0, 7, 10, ⟨1, 0⟩⟩ 12 3 3).2.1 (by norm_num)).2.1⟩⟩

/-! Step lemmas for `add_sample`. -/

theorem length_add_sample (st : EstimatorState) (c : TimesyncResponse) (now : ℤ) :
    (add_sample st c now).samples.length =
      if st.samples.length < num_samples then st.samples.length + 1
      else st.samples.length := by
  unfold add_sample
  dsimp only
  by_cases h : st.samples.length < num_samples
  · rw [if_pos h, if_pos h]
    simp
  · rw [if_neg h, if_neg h]
    by_cases hd : now - c.query > 3 * i64_udiv (sumLatency st.samples) st.samples.length
    · rw [if_pos hd]
    · rw [if_neg hd]
      simp [List.length_set]

theorem index_add_sample (st : EstimatorState) (c : TimesyncResponse) (now : ℤ) :
    (add_sample st c now).sample_index =
      if st.samples.length < num_samples then st.sample_index
      else if now - c.query > 3 * i64_udiv (sumLatency st.samples) st.samples.length
      then st.sample_index
      else (st.sample_index + 1) % num_samples := by
  unfold add_sample
  dsimp only
  by_cases h : st.samples.length < num_samples
  · rw [if_pos h, if_pos h]
  · rw [if_neg h, if_neg h]
    by_cases hd : now - c.query > 3 * i64_udiv (sumLatency st.samples) st.samples.length
    · rw [if_pos hd, if_pos hd]
    · rw [if_neg hd, if_neg hd]

theorem interval_add_sample (st : EstimatorState) (c : TimesyncResponse) (now : ℤ) :
    (add_sample st c now).sample_interval =
      if st.samples.length < num_samples then st.sample_interval
      else steady_interval := by
  unfold add_sample
  dsimp only
  by_cases h : st.samples.length < num_samples
  · rw [if_pos h, if_pos h]
  · rw [if_neg h, if_neg h]
    by_cases hd : now - c.query > 3 * i64_udiv (sumLatency st.samples) st.samples.length
    · rw [if_pos hd]
    · rw [if_neg hd]

theorem samples_add_sample_full (st : EstimatorState) (c : TimesyncResponse) (now : ℤ)
    (h : ¬ st.samples.length < num_samples) :
    (add_sample st c now).samples = st.samples ∨
    (add_sample st c now).samples =
      st.samples.set st.sample_index ⟨c.query, c.response, now⟩ := by
  unfold add_sample
  dsimp only
  rw [if_neg h]
  by_cases hd : now - c.query > 3 * i64_udiv (sumLatency st.samples) st.samples.length
  · rw [if_pos hd]
    left
    rfl
  · rw [if_neg hd]
    right
    rfl

/-! Invariants along runs. -/

theorem foldl_length_le (cs : List (TimesyncResponse × ℤ)) (st : EstimatorState)
    (h : st.samples.length ≤ num_samples) :
    (cs.foldl (fun s c => add_sample s c.1 c.2) st).samples.length ≤ num_samples := by
  induction cs generalizing st with
  | nil => simpa using h
  | cons c cs ih =>
    simp only [List.foldl_cons]
    apply ih
    rw [length_add_sample]
    split <;> omega

theorem foldl_length_mono (cs : List (TimesyncResponse × ℤ)) (st : EstimatorState) :
    st.samples.length ≤
      (cs.foldl (fun s c => add_sample s c.1 c.2) st).samples.length := by
  induction cs generalizing st with
  | nil => simp
  | cons c cs ih =>
    simp only [List.foldl_cons]
    refine le_trans ?_ (ih _)
    rw [length_add_sample]
    split <;> omega

theorem foldl_length_full (cs : List (TimesyncResponse × ℤ)) (st : EstimatorState)
    (h : st.samples.length = num_samples) :
    (cs.foldl (fun s c => add_sample s c.1 c.2) st).samples.length = num_samples := by
  induction cs generalizing st with
  | nil => simpa using h
  | cons c cs ih =>
    simp only [List.foldl_cons]
    apply ih
    rw [length_add_sample, if_neg (by omega)]
    exact h

theorem foldl_index_lt (cs : List (TimesyncResponse × ℤ)) (st : EstimatorState)
    (h : st.sample_index < num_samples) :
    (cs.foldl (fun s c => add_sample s c.1 c.2) st).sample_index < num_samples := by
  induction cs generalizing st with
  | nil => simpa using h
  | cons c cs ih =>
    simp only [List.foldl_cons]
    apply ih
    rw [index_add_sample]
    split
    · exact h
    · split
      · exact h
      · exact Nat.mod_lt _ (by norm_num [num_samples])

theorem foldl_interval_of_not_full (cs : List (TimesyncResponse × ℤ)) (st : EstimatorState)
    (h : (cs.foldl (fun s c => add_sample s c.1 c.2) st).samples.length < num_samples) :
    (cs.foldl (fun s c => add_sample s c.1 c.2) st).sample_interval =
      st.sample_interval := by
  induction cs generalizing st with
  | nil => simp
  | cons c cs ih =>
    simp only [List.foldl_cons] at h ⊢
    have hstep : st.samples.length < num_samples := by
      by_contra hge
      have h1 : num_samples ≤ (add_sample st c.1 c.2).samples.length := by
        rw [length_add_sample, if_neg hge]
        omega
      have h2 := foldl_length_mono cs (add_sample st c.1 c.2)
      omega
    rw [ih _ h, interval_add_sample, if_pos hstep]

theorem foldl_length_of_short (cs : List (TimesyncResponse × ℤ)) (st : EstimatorState)
    (h : st.samples.length + cs.length ≤ num_samples) :
    (cs.foldl (fun s c => add_sample s c.1 c.2) st).samples.length =
      st.samples.length + cs.length := by
  induction cs generalizing st with
  | nil => simp
  | cons c cs ih =>
    simp only [List.foldl_cons, List.length_cons] at h ⊢
    rw [ih _ (by rw [length_add_sample, if_pos (by omega)]; omega)]
    rw [length_add_sample, if_pos (by omega)]
    omega

/-- Claim C4: along every run from the empty estimator the window size never
exceeds `N = 100`; each `add_sample` call never shrinks the window; while the
window is not full every call appends exactly one sample (rejection cannot
happen below `N`); once the window has reached `N` it stays at `N` after any
further calls; and at size `N` every admission overwrites exactly the slot at
the current write cursor (the only alternatives are "buffer untouched" and
"cursor slot overwritten"). -/
theorem C4_window_size (fast : ℤ) (cs cs' : List (TimesyncResponse × ℤ))
    (st : EstimatorState) (c : TimesyncResponse) (now : ℤ) :
    (run fast cs).samples.length ≤ num_samples ∧
    st.samples.length ≤ (add_sample st c now).samples.length ∧
    (st.samples.length < num_samples →
      (add_sample st c now).samples.length = st.samples.length + 1) ∧
    ((run fast cs).samples.length = num_samples →
      (run fast (cs ++ cs')).samples.length = num_samples) ∧
    (st.samples.length = num_samples →
      (add_sample st c now).samples = st.samples ∨
      (add_sample st c now).samples =
        st.samples.set st.sample_index ⟨c.query, c.response, now⟩) := by
  refine ⟨?_, ?_, ?_, ?_, ?_⟩
  · exact foldl_length_le cs (initState fast) (by simp [initState])
  · rw [length_add_sample]
    split <;> omega
  · intro h
    rw [length_add_sample, if_pos h]
  · intro h
    unfold run at h ⊢
    rw [List.foldl_append]
    exact foldl_length_full cs' _ h
  · intro h
    exact samples_add_sample_full st c now (by omega)

/-- Witness for `C4` at concrete inputs: an empty window (so the append
hypothesis holds) and a full window of 100 identical samples (so the
full-window hypotheses hold). -/
theorem C4_window_size_witness :
    ((initState 1).samples.length < num_samples ∧
      (add_sample (initState 1) ⟨0, 0⟩ 0).samples.length =
        (initState 1).samples.length + 1) ∧
    ((⟨List.replicate 100 ⟨0, 0, 10⟩, 0, 100000000, 0, ⟨1, 0⟩⟩ :
        EstimatorState).samples.length = num_samples ∧
      ((add_sample ⟨List.replicate 100 ⟨0, 0, 10⟩, 0, 100000000, 0, ⟨1, 0⟩⟩
          ⟨0, 0⟩ 0).samples =
        (⟨List.replicate 100 ⟨0, 0, 10⟩, 0, 100000000, 0, ⟨1, 0⟩⟩ :
          EstimatorState).samples ∨
      (add_sample ⟨List.replicate 100 ⟨0, 0, 10⟩, 0, 100000000, 0, ⟨1, 0⟩⟩
          ⟨0, 0⟩ 0).samples =
        (⟨List.replicate 100 ⟨0, 0, 10⟩, 0, 100000000, 0, ⟨1, 0⟩⟩ :
          EstimatorState).samples.set 0 ⟨0, 0, 0⟩)) :=
  ⟨⟨by simp [initState, num_samples],
    (C4_window_size 1 [] [] (initState 1) ⟨0, 0⟩ 0).2.2.1
      (by simp [initState, num_samples])⟩,
   ⟨by simp [num_samples],
    (C4_window_size 1 [] []
        ⟨List.replicate 100 ⟨0, 0, 10⟩, 0, 100000000, 0, ⟨1, 0⟩⟩ ⟨0, 0⟩ 0).2.2.2.2
      (by simp [num_samples])⟩⟩

/-- Claim C10: from the initial state the write cursor is always strictly below
100 (so the full-window overwrite `samples[sample_index]` is in bounds
whenever the window is full), and per step the cursor advances by exactly 1
modulo 100 on a full-window admission while appends and rejected outliers
leave it unchanged. -/
theorem C10_cursor_in_bounds (fast : ℤ) (cs : List (TimesyncResponse × ℤ))
    (st : EstimatorState) (c : TimesyncResponse) (now : ℤ) :
    (run fast cs).sample_index < num_samples ∧
    ((run fast cs).samples.length = num_samples →
      (run fast cs).sample_index < (run fast cs).samples.length) ∧
    ((add_sample st c now).sample_index =
      if st.samples.length < num_samples then st.sample_index
      else if now - c.query > 3 * i64_udiv (sumLatency st.samples) st.samples.length
      then st.sample_index
      else (st.sample_index + 1) % num_samples) := by
  refine ⟨?_, ?_, index_add_sample st c now⟩
  · exact foldl_index_lt cs (initState fast) (by simp [initState, num_samples])
  · intro h
    rw [h]
    exact foldl_index_lt cs (initState fast) (by simp [initState, num_samples])

/-- Witness for `C10`: a run of exactly 100 replies brings the window to 100
samples, and the cursor is in bounds there. -/
theorem C10_cursor_in_bounds_witness :
    (run 1 (List.replicate 100 (⟨0, 0⟩, 0))).samples.length = num_samples ∧
    (run 1 (List.replicate 100 (⟨0, 0⟩, 0))).sample_index <
      (run 1 (List.replicate 100 (⟨0, 0⟩, 0))).samples.length := by
  have hfull : (run 1 (List.replicate 100 (⟨0, 0⟩, 0))).samples.length = num_samples := by
    have := foldl_length_of_short (List.replicate 100 (⟨0, 0⟩, 0)) (initState 1)
      (by simp [initState, num_samples])
    simpa [run, initState, num_samples] using this
  exact ⟨hfull,
    (C10_cursor_in_bounds 1 (List.replicate 100 (⟨0, 0⟩, 0)) (initState 1) ⟨0, 0⟩ 0).2.1
      hfull⟩



/-- Claim C7 fails as stated: on a full window with the fast interval still in
effect, a candidate rejected by the latency test (buffer untouched) still
widens `sample_interval` to 1 s — the source assigns the steady interval
before the latency test, not in the branch where the candidate passes. -/
theorem C7_counterexample :
    stateFull10.sample_interval < steady_interval ∧
    (add_sample stateFull10 ⟨0, 0⟩ 1000).samples = stateFull10.samples ∧
    (add_sample stateFull10 ⟨0, 0⟩ 1000).sample_interval = steady_interval := by
  have hlen : stateFull10.samples.length = 100 := by
    simp [stateFull10, fullWindow10]
  have hsum : sumLatency stateFull10.samples = 1000 := by
    show sumLatency fullWindow10 = 1000
    rw [fullWindow10, sumLatency_replicate]
    norm_num
  have hrej : add_sample stateFull10 ⟨0, 0⟩ 1000 =
      { stateFull10 with sample_interval := steady_interval } := by
    unfold add_sample
    dsimp only
    rw [if_neg (by rw [hlen]; norm_num [num_samples]),
      if_pos (by
        rw [hsum, hlen]
        norm_num [show i64_udiv 1000 100 = 10 from by decide])]
  rw [hrej]
  exact ⟨by norm_num [stateFull10, steady_interval], rfl, rfl⟩

/-- Claim C7 (amended): `sample_interval` is widened to the steady 1-second value
on every `add_sample` call that observes a full window — whether or not the
candidate passes the latency test — and is left unchanged by every call that
observes a non-full window; along a run it keeps its fast initial value while
the window has never been full, and once it reads the steady value (with a
sub-second initial value) it keeps it forever. -/
theorem C7_interval_widens (st : EstimatorState) (c : TimesyncResponse) (now : ℤ)
    (fast : ℤ) (cs : List (TimesyncResponse × ℤ)) :
    ((add_sample st c now).sample_interval =
      if st.samples.length < num_samples then st.sample_interval
      else steady_interval) ∧
    ((run fast cs).samples.length < num_samples →
      (run fast cs).sample_interval = fast) ∧
    (fast < steady_interval →
      (run fast cs).sample_interval = steady_interval →
      (add_sample (run fast cs) c now).sample_interval = steady_interval) := by
  refine ⟨interval_add_sample st c now, ?_, ?_⟩
  · intro h
    have := foldl_interval_of_not_full cs (initState fast) (by simpa [run] using h)
    simpa [run, initState] using this
  · intro hfast hsteady
    rw [interval_add_sample]
    by_cases hlen : (run fast cs).samples.length < num_samples
    · exfalso
      have := foldl_interval_of_not_full cs (initState fast) (by simpa [run] using hlen)
      rw [show (cs.foldl (fun s c => add_sample s c.1 c.2) (initState fast)) = run fast cs
        from rfl] at this
      rw [hsteady] at this
      simp only [initState] at this
      omega
    · rw [if_neg hlen]

/-- Witness for `C7`: the empty run keeps the fast interval, and after the
101st reply (first full-window call) the interval reads 1 s and stays 1 s. -/
theorem C7_interval_widens_witness :
    ((run 5 []).samples.length < num_samples ∧ (run 5 []).sample_interval = 5) ∧
    ((5 : ℤ) < steady_interval ∧
      (run 5 (List.replicate 101 (⟨0, 0⟩, 0))).sample_interval = steady_interval ∧
      (add_sample (run 5 (List.replicate 101 (⟨0, 0⟩, 0))) ⟨0, 0⟩ 0).sample_interval =
        steady_interval) := by
  have hsteady : (run 5 (List.replicate 101 (⟨0, 0⟩, 0))).sample_interval =
      steady_interval := by
    have h100 : (run 5 (List.replicate 100 (⟨0, 0⟩, 0))).samples.length = num_samples := by
      have := foldl_length_of_short (List.replicate 100 (⟨0, 0⟩, 0)) (initState 5)
        (by simp [initState, num_samples])
      simpa [run, initState, num_samples] using this
    have hsplit : run 5 (List.replicate 101 (⟨0, 0⟩, 0)) =
        add_sample (run 5 (List.replicate 100 (⟨0, 0⟩, 0))) ⟨0, 0⟩ 0 := by
      rw [show (List.replicate 101 ((⟨0, 0⟩ : TimesyncResponse), (0 : ℤ))) =
        List.replicate 100 (⟨0, 0⟩, 0) ++ [(⟨0, 0⟩, 0)] from List.replicate_succ' 100 _ ▸ rfl]
      unfold run
      rw [List.foldl_append]
      rfl
    rw [hsplit, interval_add_sample, if_neg (by omega)]
  refine ⟨⟨by simp [run, initState, num_samples], ?_⟩, ?_, hsteady, ?_⟩
  · exact (C7_interval_widens (initState 5) ⟨0, 0⟩ 0 5 []).2.1
      (by simp [run, initState, num_samples])
  · norm_num [steady_interval]
  · exact (C7_interval_widens (initState 5) ⟨0, 0⟩ 0 5
      (List.replicate 101 (⟨0, 0⟩, 0))).2.2 (by norm_num [steady_interval]) hsteady



/-- Claim C1 fails as stated when the rolling mean latency is negative: here the
mean is −1.5 ns, the candidate's latency −4 ns satisfies −4 > 3·(−1.5), yet
the sample is admitted and the buffer changes: the source divides the
(negative) `int64_t` latency sum by the unsigned `samples.size()`, so the
computed mean wraps to a huge positive value and the drop test fails. -/
theorem C1_counterexample :
    negLatState.samples.length = num_samples ∧
    (((0 : ℤ) - (⟨4, 0⟩ : TimesyncResponse).query : ℤ) : ℚ) >
      3 * ((sumLatency negLatState.samples : ℚ) / (negLatState.samples.length : ℚ)) ∧
    (add_sample negLatState ⟨4, 0⟩ 0).samples ≠ negLatState.samples := by
  have hlen : negLatState.samples.length = 100 := by
    simp [negLatState, negLatWindow]
  have hsum : sumLatency negLatState.samples = -150 := by
    show sumLatency negLatWindow = -150
    rw [negLatWindow, sumLatency_cons, sumLatency_append, sumLatency_replicate,
      sumLatency_replicate]
    norm_num
  have hsamp : (add_sample negLatState ⟨4, 0⟩ 0).samples =
      negLatWindow.set 0 ⟨4, 0, 0⟩ := by
    unfold add_sample
    dsimp only
    rw [if_neg (by rw [hlen]; norm_num [num_samples]),
      if_neg (by
        rw [hsum, hlen]
        norm_num [show i64_udiv (-150) 100 = 184467440737095514 from by decide])]
    rfl
  have hne : negLatWindow.set 0 (⟨4, 0, 0⟩ : Sample) ≠ negLatWindow := by
    unfold negLatWindow
    rw [List.set_cons_zero]
    simp
  refine ⟨by simp [hlen, num_samples], by rw [hsum, hlen]; norm_num, ?_⟩
  rw [hsamp]
  show negLatWindow.set 0 ⟨4, 0, 0⟩ ≠ negLatWindow
  exact hne

/-- The `int64_t /= size_t` mean computation agrees with mathematical
integer division when the latency sum is nonnegative and within `int64`
range. -/
theorem i64_udiv_100_of_nonneg (S : ℤ) (h0 : 0 ≤ S) (h1 : S < 2 ^ 63) :
    i64_udiv S 100 = S / 100 := by
  unfold i64_udiv
  dsimp only
  rw [Int.emod_eq_of_lt h0 (lt_trans h1 (by norm_num))]
  rw [if_pos (lt_of_le_of_lt (Nat.div_le_self _ _)
    (by simpa using (Int.toNat_lt_toNat (by norm_num)).mpr h1))]
  rw [Int.ofNat_tdiv, Int.toNat_of_nonneg h0, Int.tdiv_eq_ediv h0 (by norm_num)]
  norm_num

/-- Claim C1 (amended): on a full window whose stored round-trip latencies have a
nonnegative sum within `int64` range, a candidate whose round-trip latency
strictly exceeds 3× the rolling mean latency `L` is discarded entirely: the
buffer contents, the model coefficients and the write cursor are all exactly
unchanged (the original claim fails only when the latency sum is negative,
where the unsigned division wraps). -/
theorem C1_outlier_rejected (st : EstimatorState) (c : TimesyncResponse) (now : ℤ)
    (hlen : st.samples.length = num_samples)
    (hnn : 0 ≤ sumLatency st.samples)
    (hbound : sumLatency st.samples < 2 ^ 63)
    (hout : ((now - c.query : ℤ) : ℚ) >
      3 * ((sumLatency st.samples : ℚ) / (st.samples.length : ℚ))) :
    (add_sample st c now).samples = st.samples ∧
    (add_sample st c now).offset = st.offset ∧
    (add_sample st c now).sample_index = st.sample_index := by
  have hq : 100 * ((now - c.query : ℤ) : ℚ) > 3 * ((sumLatency st.samples : ℤ) : ℚ) := by
    rw [hlen] at hout
    have h100 : ((num_samples : ℕ) : ℚ) = 100 := by norm_num [num_samples]
    rw [h100] at hout
    linarith
  have hz : 100 * (now - c.query) > 3 * sumLatency st.samples := by exact_mod_cast hq
  have hdrop : now - c.query > 3 * i64_udiv (sumLatency st.samples) st.samples.length := by
    rw [hlen]
    show now - c.query > 3 * i64_udiv (sumLatency st.samples) 100
    rw [i64_udiv_100_of_nonneg (sumLatency st.samples) hnn hbound]
    omega
  have hnotlt : ¬ st.samples.length < num_samples := by
    rw [hlen]
    exact lt_irrefl _
  unfold add_sample
  dsimp only
  rw [if_neg hnotlt, if_pos hdrop]
  exact ⟨rfl, rfl, rfl⟩

/-- Witness for `C1` (amended) on `stateFull10` (mean latency 10 ns, all
latencies nonnegative) with a candidate of latency 1000 ns > 3·10 ns. -/
theorem C1_outlier_rejected_witness :
    stateFull10.samples.length = num_samples ∧
    0 ≤ sumLatency stateFull10.samples ∧
    sumLatency stateFull10.samples < 2 ^ 63 ∧
    (((1000 : ℤ) - (⟨0, 0⟩ : TimesyncResponse).query : ℤ) : ℚ) >
      3 * ((sumLatency stateFull10.samples : ℚ) / (stateFull10.samples.length : ℚ)) ∧
    (add_sample stateFull10 ⟨0, 0⟩ 1000).samples = stateFull10.samples ∧
    (add_sample stateFull10 ⟨0, 0⟩ 1000).offset = stateFull10.offset := by
  have hlen : stateFull10.samples.length = 100 := by
    simp [stateFull10, fullWindow10]
  have hsum : sumLatency stateFull10.samples = 1000 := by
    show sumLatency fullWindow10 = 1000
    rw [fullWindow10, sumLatency_replicate]
    norm_num
  have hout : (((1000 : ℤ) - (⟨0, 0⟩ : TimesyncResponse).query : ℤ) : ℚ) >
      3 * ((sumLatency stateFull10.samples : ℚ) / (stateFull10.samples.length : ℚ)) := by
    rw [hsum, hlen]
    norm_num
  have h := C1_outlier_rejected stateFull10 ⟨0, 0⟩ 1000
    (by simp [hlen, num_samples]) (by rw [hsum]; norm_num) (by rw [hsum]; norm_num) hout
  exact ⟨by simp [hlen, num_samples], by rw [hsum]; norm_num, by rw [hsum]; norm_num,
    hout, h.1, h.2.1⟩

/-! Sum lemmas for the regression. -/

theorem sum_map_sub (l : List Sample) (f g : Sample → ℚ) :
    (l.map (fun s => f s - g s)).sum = (l.map f).sum - (l.map g).sum := by
  induction l with
  | nil => simp
  | cons a l ih =>
    simp only [List.map_cons, List.sum_cons, ih]
    ring

theorem sum_map_const (l : List Sample) (c : ℚ) :
    (l.map (fun _ => c)).sum = (l.length : ℚ) * c := by
  induction l with
  | nil => simp
  | cons a l ih =>
    simp only [List.map_cons, List.sum_cons, List.length_cons, ih]
    push_cast
    ring

theorem sum_x_eq_zero (l : List Sample) (h : l.length ≠ 0) : sum_x l = 0 := by
  unfold sum_x
  rw [sum_map_sub l midpointX (fun _ => meanX0 l), sum_map_const]
  unfold meanX0
  have hn : (l.length : ℚ) ≠ 0 := Nat.cast_ne_zero.mpr h
  field_simp

/-- The model recomputed on the appended window in the bootstrap branch. -/
theorem offset_add_sample_bootstrap (st : EstimatorState) (c : TimesyncResponse)
    (now : ℤ) (h : st.samples.length + 1 < num_samples) :
    (add_sample st c now).offset =
      bootstrapOffset (st.samples ++ [⟨c.query, c.response, now⟩]) := by
  unfold add_sample
  dsimp only
  rw [if_pos (by omega)]
  dsimp only
  unfold recomputeOffset
  rw [if_pos (by simpa using h)]

/-- Claim C3: on every call that appends while the window stays below `N = 100`
(`n < N` after the append), the recomputed model has slope exactly 1 and
intercept `mean(response) − mean((query + received)/2)` over the stored
samples. -/
theorem C3_bootstrap_model (st : EstimatorState) (c : TimesyncResponse) (now : ℤ)
    (h : st.samples.length + 1 < num_samples) :
    (add_sample st c now).offset.a = 1 ∧
    (add_sample st c now).offset.b =
      ((st.samples ++ [(⟨c.query, c.response, now⟩ : Sample)]).map
          (fun s => (s.response : ℚ))).sum /
        (((st.samples ++ [(⟨c.query, c.response, now⟩ : Sample)]).length : ℕ) : ℚ) -
      ((st.samples ++ [(⟨c.query, c.response, now⟩ : Sample)]).map
          (fun s => ((s.query : ℚ) + (s.received : ℚ)) / 2)).sum /
        (((st.samples ++ [(⟨c.query, c.response, now⟩ : Sample)]).length : ℕ) : ℚ) := by
  rw [offset_add_sample_bootstrap st c now h]
  constructor
  · rfl
  · show meanY0 _ - meanX0 _ = _
    unfold meanY0 meanX0
    have hmap : List.map midpointX (st.samples ++ [(⟨c.query, c.response, now⟩ : Sample)]) =
        List.map (fun s => ((s.query : ℚ) + (s.received : ℚ)) / 2)
          (st.samples ++ [(⟨c.query, c.response, now⟩ : Sample)]) := by
      apply List.map_congr_left
      intro s _
      unfold midpointX
      push_cast
      ring
    rw [hmap]

/-- Witness for `C3`: the very first sample, `query = 6`, `response = 10`,
arriving at `now = 8`. -/
theorem C3_bootstrap_model_witness :
    (initState 1).samples.length + 1 < num_samples ∧
    (add_sample (initState 1) ⟨6, 10⟩ 8).offset.a = 1 ∧
    (add_sample (initState 1) ⟨6, 10⟩ 8).offset.b =
      (((initState 1).samples ++ [(⟨6, 10, 8⟩ : Sample)]).map
          (fun s => (s.response : ℚ))).sum /
        ((((initState 1).samples ++ [(⟨6, 10, 8⟩ : Sample)]).length : ℕ) : ℚ) -
      (((initState 1).samples ++ [(⟨6, 10, 8⟩ : Sample)]).map
          (fun s => ((s.query : ℚ) + (s.received : ℚ)) / 2)).sum /
        ((((initState 1).samples ++ [(⟨6, 10, 8⟩ : Sample)]).length : ℕ) : ℚ) :=
  ⟨by simp [initState, num_samples],
   (C3_bootstrap_model (initState 1) ⟨6, 10⟩ 8 (by simp [initState, num_samples])).1,
   (C3_bootstrap_model (initState 1) ⟨6, 10⟩ 8 (by simp [initState, num_samples])).2⟩

/-- Non-degenerate X-variance: two samples with distinct midpoints force a
strictly positive `sum_x2`. -/
theorem sum_x2_pos_of_ne_midpoints (l : List Sample) (s₁ s₂ : Sample)
    (h₁ : s₁ ∈ l) (h₂ : s₂ ∈ l) (hne : midpointX s₁ ≠ midpointX s₂) :
    0 < sum_x2 l := by
  have hterm : ∀ x ∈ l.map (fun t => (midpointX t - meanX0 l) * (midpointX t - meanX0 l)),
      (0 : ℚ) ≤ x := by
    intro x hx
    obtain ⟨t, _, rfl⟩ := List.mem_map.mp hx
    exact mul_self_nonneg _
  have main : ∀ s ∈ l, midpointX s ≠ meanX0 l → 0 < sum_x2 l := by
    intro s hs hk
    have hmem : (midpointX s - meanX0 l) * (midpointX s - meanX0 l) ∈
        l.map (fun t => (midpointX t - meanX0 l) * (midpointX t - meanX0 l)) :=
      List.mem_map_of_mem _ hs
    have hpos : 0 < (midpointX s - meanX0 l) * (midpointX s - meanX0 l) :=
      mul_self_pos.mpr (sub_ne_zero.mpr hk)
    exact lt_of_lt_of_le hpos (List.single_le_sum hterm _ hmem)
  by_cases hk : midpointX s₁ = meanX0 l
  · exact main s₂ h₂ (fun hc => hne (hk.trans hc.symm))
  · exact main s₁ h₁ hk

/-- Exact-data correctness of the steady-state regression: if every stored
point lies on `response = a* · midpoint + b*` and the X-variance is
non-degenerate, the computed slope is exactly `a*` (and equals the
centered-coordinate OLS quotient `Σxy/Σx²`), and the stored intercept is
within 1 ns of `b*` (the only deviation being the `int64_t(a * x0)` cast). -/
theorem regress_affine (l : List Sample) (aStar bStar : ℚ)
    (hne : l.length ≠ 0)
    (haff : ∀ s ∈ l, (s.response : ℚ) = aStar * midpointX s + bStar)
    (hnd : sum_x2 l ≠ 0) :
    (regress l).a = aStar ∧
    (regress l).a = sum_xy l / sum_x2 l ∧
    |(regress l).b - bStar| < 1 := by
  have hn : (l.length : ℚ) ≠ 0 := Nat.cast_ne_zero.mpr hne
  have hsx : sum_x l = 0 := sum_x_eq_zero l hne
  have hy0 : meanY0 l = aStar * meanX0 l + bStar := by
    unfold meanY0 meanX0
    rw [List.map_congr_left haff, List.sum_map_add, List.sum_map_mul_left, sum_map_const]
    field_simp
    ring
  have hsy : sum_y l = 0 := by
    unfold sum_y
    have hmap : l.map (fun s => (s.response : ℚ) - meanY0 l) =
        l.map (fun s => aStar * (midpointX s - meanX0 l)) := by
      apply List.map_congr_left
      intro s hs
      rw [haff s hs, hy0]
      ring
    rw [hmap, List.sum_map_mul_left]
    have hx : (l.map (fun s => midpointX s - meanX0 l)).sum = sum_x l := rfl
    rw [hx, hsx, mul_zero]
  have hsxy : sum_xy l = aStar * sum_x2 l := by
    unfold sum_xy
    have hmap : l.map (fun s => (midpointX s - meanX0 l) * ((s.response : ℚ) - meanY0 l)) =
        l.map (fun s => aStar * ((midpointX s - meanX0 l) * (midpointX s - meanX0 l))) := by
      apply List.map_congr_left
      intro s hs
      rw [haff s hs, hy0]
      ring
    rw [hmap, List.sum_map_mul_left]
    rfl
  have hcov : regressionCov l = (1 / (l.length : ℚ)) * (aStar * sum_x2 l) := by
    unfold regressionCov
    dsimp only
    rw [hsxy, hsx, hsy]
    ring
  have hden : regressionDenom l = (1 / (l.length : ℚ)) * sum_x2 l := by
    unfold regressionDenom
    dsimp only
    rw [hsx]
    ring
  have hA : (regress l).a = aStar := by
    show regressionCov l / regressionDenom l = aStar
    rw [hcov, hden]
    field_simp
  refine ⟨hA, ?_, ?_⟩
  · rw [hA, hsxy, mul_div_assoc, div_self hnd, mul_one]
  · have hB : (regress l).b = meanY0 l + (sum_y l * (1 / (l.length : ℚ)) -
        (regressionCov l / regressionDenom l) * (sum_x l * (1 / (l.length : ℚ)))) -
        ((i64trunc ((regressionCov l / regressionDenom l) * meanX0 l) : ℤ) : ℚ) := rfl
    have hA' : regressionCov l / regressionDenom l = aStar := hA
    rw [hB, hA', hsy, hsx]
    have h1 : meanY0 l + ((0 : ℚ) * (1 / (l.length : ℚ)) -
        aStar * ((0 : ℚ) * (1 / (l.length : ℚ)))) -
        ((i64trunc (aStar * meanX0 l) : ℤ) : ℚ) - bStar =
        aStar * meanX0 l - ((i64trunc (aStar * meanX0 l) : ℤ) : ℚ) := by
      rw [hy0]
      ring
    calc |meanY0 l + ((0 : ℚ) * (1 / (l.length : ℚ)) -
            aStar * ((0 : ℚ) * (1 / (l.length : ℚ)))) -
            ((i64trunc (aStar * meanX0 l) : ℤ) : ℚ) - bStar|
        = |aStar * meanX0 l - ((i64trunc (aStar * meanX0 l) : ℤ) : ℚ)| := by rw [h1]
      _ < 1 := by
          rw [abs_sub_comm]
          exact abs_i64trunc_sub_lt _

/-- Claim C2: when a candidate is admitted into a full window and the resulting
100 samples lie exactly on `response = a* · midpoint + b*` with non-degenerate
X-variance, the recomputed model recovers `(a*, b*)`: the slope is exactly
`a*` and equals the centered-coordinate OLS value `Σ(x·y)/Σ(x²)`, and the
intercept `y0 + (mean(y) − a·mean(x)) − int64_t(a·x0)` is within 1 ns of `b*`
(exact up to the floating-point/integer cast tolerance). -/
theorem C2_regression_recovers_affine (st : EstimatorState) (c : TimesyncResponse)
    (now : ℤ) (aStar bStar : ℚ)
    (hlen : st.samples.length = num_samples)
    (hadm : ¬ now - c.query > 3 * i64_udiv (sumLatency st.samples) st.samples.length)
    (haff : ∀ s ∈ st.samples.set st.sample_index (⟨c.query, c.response, now⟩ : Sample),
      (s.response : ℚ) = aStar * midpointX s + bStar)
    (hnd : sum_x2 (st.samples.set st.sample_index
      (⟨c.query, c.response, now⟩ : Sample)) ≠ 0) :
    (add_sample st c now).offset.a = aStar ∧
    (add_sample st c now).offset.a =
      sum_xy (st.samples.set st.sample_index (⟨c.query, c.response, now⟩ : Sample)) /
        sum_x2 (st.samples.set st.sample_index (⟨c.query, c.response, now⟩ : Sample)) ∧
    |(add_sample st c now).offset.b - bStar| < 1 := by
  have hnotlt : ¬ st.samples.length < num_samples := by
    rw [hlen]
    exact lt_irrefl _
  have hoff : (add_sample st c now).offset =
      regress (st.samples.set st.sample_index (⟨c.query, c.response, now⟩ : Sample)) := by
    unfold add_sample
    dsimp only
    rw [if_neg hnotlt, if_neg hadm]
    dsimp only
    unfold recomputeOffset
    rw [if_neg (by rw [List.length_set]; exact hnotlt)]
  have hlenset : (st.samples.set st.sample_index
      (⟨c.query, c.response, now⟩ : Sample)).length ≠ 0 := by
    rw [List.length_set, hlen]
    norm_num [num_samples]
  obtain ⟨h1, h2, h3⟩ := regress_affine _ aStar bStar hlenset haff hnd
  rw [hoff]
  exact ⟨h1, h2, h3⟩



/-- Witness for `C2`: admitting the reply `(0, 0)` at `now = 0` into
`affineState` leaves 100 points exactly on `response = 1 · midpoint + 0`,
and the recomputed model is `(1, 0)` up to the sub-nanosecond cast. -/
theorem C2_regression_recovers_affine_witness :
    affineState.samples.length = num_samples ∧
    (∀ s ∈ affineState.samples.set affineState.sample_index ((⟨0, 0, 0⟩ : Sample)),
      (s.response : ℚ) = 1 * midpointX s + 0) ∧
    sum_x2 (affineState.samples.set affineState.sample_index ((⟨0, 0, 0⟩ : Sample))) ≠ 0 ∧
    (add_sample affineState ⟨0, 0⟩ 0).offset.a = 1 ∧
    |(add_sample affineState ⟨0, 0⟩ 0).offset.b - 0| < 1 := by
  have hW : affineState.samples.set affineState.sample_index ((⟨0, 0, 0⟩ : Sample)) =
      ⟨0, 0, 0⟩ :: affineTail := rfl
  have hlenTail : affineTail.length = 99 := by
    unfold affineTail
    rw [List.length_map, List.length_range]
  have hlen : affineState.samples.length = 100 := by
    show (Sample.mk 0 0 1000 :: affineTail).length = 100
    rw [List.length_cons, hlenTail]
  have htail : sumLatency affineTail = 0 := by
    unfold sumLatency affineTail
    rw [List.map_map]
    rw [show ((fun s => s.received - s.query) ∘ fun i : ℕ =>
        (⟨2 * ((i : ℤ) + 1), 2 * ((i : ℤ) + 1), 2 * ((i : ℤ) + 1)⟩ : Sample)) =
      (fun _ : ℕ => (0 : ℤ)) from funext fun i => by simp]
    rw [List.map_const', List.sum_replicate]
    simp
  have hsum : sumLatency affineState.samples = 1000 := by
    show sumLatency (⟨0, 0, 1000⟩ :: affineTail) = 1000
    rw [sumLatency_cons, htail]
    norm_num
  have haff : ∀ s ∈ affineState.samples.set affineState.sample_index ((⟨0, 0, 0⟩ : Sample)),
      (s.response : ℚ) = 1 * midpointX s + 0 := by
    intro s hs
    rw [hW] at hs
    rcases List.mem_cons.mp hs with h | h
    · subst h
      norm_num [midpointX]
    · unfold affineTail at h
      obtain ⟨i, _, rfl⟩ := List.mem_map.mp h
      unfold midpointX
      push_cast
      ring
  have hnd : sum_x2 (affineState.samples.set affineState.sample_index
      ((⟨0, 0, 0⟩ : Sample))) ≠ 0 := by
    refine (sum_x2_pos_of_ne_midpoints _ ⟨0, 0, 0⟩ ⟨2, 2, 2⟩ ?_ ?_ ?_).ne'
    · rw [hW]
      exact List.mem_cons_self _ _
    · rw [hW]
      refine List.mem_cons_of_mem _ ?_
      have h0 : (0 : ℕ) ∈ List.range 99 := List.mem_range.mpr (by norm_num)
      unfold affineTail
      refine List.mem_map.mpr ⟨0, h0, ?_⟩
      norm_num
    · norm_num [midpointX]
  have h := C2_regression_recovers_affine affineState ⟨0, 0⟩ 0 1 0
    (by simp [hlen, num_samples])
    (by
      rw [hsum, hlen]
      norm_num [show i64_udiv 1000 100 = 10 from by decide])
    haff hnd
  exact ⟨by simp [hlen, num_samples], haff, hnd, h.1, h.2.2⟩



/-- Claim C9: the steady-state slope division is not guarded: on a full window of
admitted samples all sharing the same midpoint, the regression denominator is
exactly 0, yet `add_sample` still computes `a = cov / v` with `v = 0` and
stores the result, replacing the previous model instead of rejecting the
update.  (Over the rational model division by zero yields 0; in IEEE
arithmetic the same unguarded division produces a non-finite value.) -/
theorem C9_degenerate_denominator :
    regressionDenom (constState.samples.set constState.sample_index
      ((⟨0, 5, 0⟩ : Sample))) = 0 ∧
    (add_sample constState ⟨0, 5⟩ 0).offset =
      regress (constState.samples.set constState.sample_index ((⟨0, 5, 0⟩ : Sample))) ∧
    (add_sample constState ⟨0, 5⟩ 0).offset.a =
      regressionCov (constState.samples.set constState.sample_index
          ((⟨0, 5, 0⟩ : Sample))) /
        regressionDenom (constState.samples.set constState.sample_index
          ((⟨0, 5, 0⟩ : Sample))) ∧
    (add_sample constState ⟨0, 5⟩ 0).offset ≠ constState.offset := by
  have hset : constState.samples.set constState.sample_index ((⟨0, 5, 0⟩ : Sample)) =
      constWindow := by
    show (List.replicate 100 (⟨0, 5, 0⟩ : Sample)).set 0 ⟨0, 5, 0⟩ =
      List.replicate 100 ⟨0, 5, 0⟩
    rw [show (100 : ℕ) = 99 + 1 from rfl, List.replicate_succ, List.set_cons_zero]
  have hlenC : constState.samples.length = 100 := by
    simp [constState, constWindow]
  have hsumC : sumLatency constState.samples = 0 := by
    show sumLatency constWindow = 0
    rw [constWindow, sumLatency_replicate]
    norm_num
  have hmid : midpointX (⟨0, 5, 0⟩ : Sample) = 0 := by norm_num [midpointX]
  have hx0 : meanX0 constWindow = 0 := by
    unfold meanX0 constWindow
    rw [List.map_replicate, hmid, List.sum_replicate]
    simp
  have hsx : sum_x constWindow = 0 :=
    sum_x_eq_zero _ (by simp [constWindow])
  have hsx2 : sum_x2 constWindow = 0 := by
    unfold sum_x2
    rw [show constWindow.map (fun s => (midpointX s - meanX0 constWindow) *
        (midpointX s - meanX0 constWindow)) =
      List.replicate 100 ((midpointX (⟨0, 5, 0⟩ : Sample) - meanX0 constWindow) *
        (midpointX (⟨0, 5, 0⟩ : Sample) - meanX0 constWindow)) from List.map_replicate]
    rw [hmid, hx0, List.sum_replicate]
    simp
  have hden : regressionDenom constWindow = 0 := by
    unfold regressionDenom
    dsimp only
    rw [hsx2, hsx]
    ring
  have hoff : (add_sample constState ⟨0, 5⟩ 0).offset =
      regress (constState.samples.set constState.sample_index ((⟨0, 5, 0⟩ : Sample))) := by
    unfold add_sample
    dsimp only
    rw [if_neg (by rw [hlenC]; norm_num [num_samples]),
      if_neg (by
        rw [hsumC, hlenC]
        norm_num [show i64_udiv 0 100 = 0 from by decide])]
    dsimp only
    unfold recomputeOffset
    rw [if_neg (by rw [List.length_set, hlenC]; norm_num [num_samples])]
  have hA : (add_sample constState ⟨0, 5⟩ 0).offset.a = 0 := by
    rw [hoff]
    show regressionCov _ / regressionDenom _ = 0
    rw [hset, hden, div_zero]
  refine ⟨by rw [hset]; exact hden, hoff, by rw [hoff]; rfl, ?_⟩
  intro heq
  rw [heq] at hA
  have : constState.offset.a = 1 := rfl
  rw [this] at hA
  norm_num at hA

end WiVRnClock
